import Mathlib

/-!
Verification of the cAST compressor (`src/code_indexer/c_ast_compressor.py`).

The compressor consumes a syntax tree produced by an external parser
(`tree_sitter_languages`, an opaque capability), so the tree type below is the
input data model: a node has a kind string (`typ`), a named flag, a source
text span, and an ordered list of children.  Compressed nodes are the Python
dictionaries built by `CCompressor._compress_ast_recursive`: the four shapes
of dictionary that occur (`is_leaf`, `preserved`, `merged`, plain) become the
four constructors.  A missing `text` key and `text == ''` are
indistinguishable under the `dict.get` truthiness checks the source performs,
so `text` is a plain `String` with `""` for "absent".

Python floats are modelled by exact rationals; every comparison appearing in
a concrete run below is made at values far from any float rounding boundary.
Python string primitives (`lower`, `split`, `strip`, `in`, slicing, `join`)
are modelled by structural functions over the character list of a `String`,
mirroring their Python semantics, so that every function in the development
is kernel-computable and concrete program runs can be settled by `decide`.
Batteries marks the `Rat` arithmetic operations `@[irreducible]`, which only
blocks the elaborator's evaluation inside `decide`; restoring the default
transparency (a plain reducibility setting, no axioms involved) re-enables
it.
-/

set_option allowUnsafeReducibility true

attribute [semireducible] Rat.add Rat.mul Rat.sub Rat.div Rat.inv Rat.neg Rat.blt

/-- Python `len(s)` (code points). -/
def py_len (s : String) : Nat := s.data.length

/-- Python `s.lower()` (ASCII case folding suffices for the program's data). -/
def py_lower (s : String) : String := ⟨s.data.map Char.toLower⟩

/-- Python `s[:n]` (slice of the first `n` code points). -/
def py_take (s : String) (n : Nat) : String := ⟨s.data.take n⟩

/-- Python `s.strip()`: drop leading and trailing whitespace. -/
def py_strip (s : String) : String :=
  ⟨(((s.data.dropWhile Char.isWhitespace).reverse.dropWhile Char.isWhitespace).reverse)⟩

/-- Helper for `py_split`: accumulate the current word (reversed) and emit
words at whitespace boundaries. -/
def py_split_aux : List Char → List Char → List String
  | [], acc => if acc.isEmpty then [] else [⟨acc.reverse⟩]
  | c :: cs, acc =>
      if c.isWhitespace then
        if acc.isEmpty then py_split_aux cs []
        else ⟨acc.reverse⟩ :: py_split_aux cs []
      else py_split_aux cs (c :: acc)

/-- Python `s.split()` with no argument: split on runs of whitespace,
discarding empty fragments. -/
def py_split (s : String) : List String := py_split_aux s.data []

/-- Prefix test on character lists (second argument is the candidate
prefix). -/
def starts_with : List Char → List Char → Bool
  | _, [] => true
  | [], _ :: _ => false
  | h :: hs, n :: ns => h == n && starts_with hs ns

/-- Substring occurrence test on character lists. -/
def has_sub : List Char → List Char → Bool
  | [], n => n.isEmpty
  | h :: hs, n => starts_with (h :: hs) n || has_sub hs n

/-- Python `needle in haystack` substring test. -/
def py_contains (haystack needle : String) : Bool :=
  has_sub haystack.data needle.data

/-- Python `sep.join(parts)`. -/
def py_join (sep : String) : List String → String
  | [] => ""
  | [x] => x
  | x :: y :: xs => x ++ sep ++ py_join sep (y :: xs)

/-- A node of the external parser's tree (`tree_sitter` node: `type`,
`is_named`, `text`, `children`). -/
inductive SNode where
  | node (typ : String) (named : Bool) (text : String) (children : List SNode)
deriving Repr

def SNode.styp : SNode → String
  | .node t _ _ _ => t

def SNode.snamed : SNode → Bool
  | .node _ b _ _ => b

def SNode.stext : SNode → String
  | .node _ _ x _ => x

def SNode.schildren : SNode → List SNode
  | .node _ _ _ c => c

/-- A compressed node: the dictionary produced by
`CCompressor._compress_ast_recursive` / `_preserve_node` / `_merge_nodes`. -/
inductive CNode where
  | leaf (typ : String) (text : String)
  | preserved (typ : String) (children : List CNode) (text : String)
  | merged (typ : String) (original_count : Nat) (children : List CNode) (text : String)
  | regular (typ : String) (children : List CNode)
deriving Repr

def CNode.ctyp : CNode → String
  | .leaf t _ => t
  | .preserved t _ _ => t
  | .merged t _ _ _ => t
  | .regular t _ => t

/-- The `children` key read with `node.get('children', [])`. -/
def CNode.cchildren : CNode → List CNode
  | .leaf _ _ => []
  | .preserved _ c _ => c
  | .merged _ _ c _ => c
  | .regular _ c => c

/-- The `text` key read with `node.get('text')`; `""` encodes an absent key. -/
def CNode.ctext : CNode → String
  | .leaf _ x => x
  | .preserved _ _ x => x
  | .merged _ _ _ x => x
  | .regular _ _ => ""

/-- The `is_leaf` key read with `node.get('is_leaf', False)`. -/
def CNode.is_leaf_flag : CNode → Bool
  | .leaf _ _ => true
  | _ => false

/-- `CCompressor.PRESERVE_NODE_TYPES`. -/
def preserve_node_types : List String :=
  ["if_statement", "for_statement", "while_statement", "enhanced_for_statement",
   "try_statement", "catch_clause", "finally_clause", "switch_statement",
   "case_statement",
   "method_declaration", "class_declaration", "interface_declaration",
   "constructor_declaration", "field_declaration",
   "assignment_expression", "return_statement", "throw_statement",
   "block"]

/-- `CCompressor.MERGEABLE_NODE_TYPES`. -/
def mergeable_node_types : List String :=
  ["expression_statement", "local_variable_declaration", "method_invocation",
   "binary_expression", "unary_expression", "argument_list",
   "field_access", "array_access"]

/-- Per-call statistics accumulator (the counters of `self.stats` that the
traversal mutates in place). -/
structure Stats where
  total_nodes : Nat
  merged_nodes : Nat
  preserved_nodes : Nat
deriving Repr

mutual

/-- `CCompressor._extract_text`: the node's own `text` if truthy, otherwise
the space-join of the non-empty recursively extracted child texts. -/
def extract_text : CNode → String
  | .leaf _ x => x
  | .preserved _ kids x =>
      if x ≠ "" then x
      else py_join " " ((extract_text_list kids).filter (fun s => s ≠ ""))
  | .merged _ _ kids x =>
      if x ≠ "" then x
      else py_join " " ((extract_text_list kids).filter (fun s => s ≠ ""))
  | .regular _ kids =>
      py_join " " ((extract_text_list kids).filter (fun s => s ≠ ""))

/-- Texts of a list of nodes, in order (the list comprehension inside
`_extract_text`). -/
def extract_text_list : List CNode → List String
  | [] => []
  | c :: cs => extract_text c :: extract_text_list cs

end

/-- Python `set(text.lower().split())`, as a duplicate-free token list. -/
def token_set (s : String) : List String := (py_split (py_lower s)).dedup

/-- `CCompressor._calculate_similarity`: kind match (0.4, lenient 0.3 for a
shared `for`/`if` family), structural similarity (0.3 weighted by child-count
agreement, or 0.3 for two childless nodes, or a 0.1 asymmetry score), token
overlap (0.3 * jaccard above the 0.3 cutoff, flat 0.1 otherwise when both
texts are non-empty), capped at 1. -/
def calculate_similarity (node1 node2 : CNode) : ℚ :=
  let type1 := node1.ctyp
  let type2 := node2.ctyp
  let typeScore : ℚ :=
    if type1 = type2 then 4/10
    else if (py_contains type1 "for" && py_contains type2 "for") ||
            (py_contains type1 "if" && py_contains type2 "if") then 3/10
    else 0
  let children1 := node1.cchildren
  let children2 := node2.cchildren
  let structScore : ℚ :=
    if 0 < children1.length ∧ 0 < children2.length then
      let sizeSim : ℚ :=
        1 - (((children1.length : ℤ) - (children2.length : ℤ)).natAbs : ℚ) /
              (max children1.length children2.length : ℚ)
      3/10 * sizeSim
    else if children1.length = 0 ∧ children2.length = 0 then 3/10
    else 1/10
  let text1 := extract_text node1
  let text2 := extract_text node2
  let textScore : ℚ :=
    if text1 ≠ "" ∧ text2 ≠ "" then
      let tokens1 := token_set text1
      let tokens2 := token_set text2
      if 0 < tokens1.length ∧ 0 < tokens2.length then
        let inter := (tokens1.filter (fun w => tokens2.contains w)).length
        let uni := tokens1.length + (tokens2.filter (fun w => !tokens1.contains w)).length
        let jaccard : ℚ := (inter : ℚ) / (uni : ℚ)
        if 3/10 < jaccard then 3/10 * jaccard else 1/10
      else 0
    else 0
  min (typeScore + structScore + textScore) 1

/-- `CCompressor._merge_nodes`: merged node with the first operand's kind,
`original_count = 2`, concatenated children, combined text. -/
def merge_nodes (node1 node2 : CNode) : CNode :=
  let children1 := node1.cchildren
  let children2 := node2.cchildren
  let kids := children1 ++ children2
  let text1 := extract_text node1
  let text2 := extract_text node2
  let text :=
    if text1 ≠ "" ∧ text2 ≠ "" then text1 ++ " " ++ text2
    else if text1 ≠ "" then text1
    else text2
  .merged node1.ctyp 2 kids text

/-- The candidate filter of `_merge_similar_siblings`: mergeable kind and not
a leaf. -/
def mergeable_cand (c : CNode) : Bool :=
  mergeable_node_types.contains c.ctyp && !c.is_leaf_flag

/-- Fallback node for list indexing (indices are always in range). -/
def junkNode : CNode := .regular "" []

/-- One iteration of the greedy sweep in `_merge_similar_siblings`: the
accumulator is (output list, skip set, merged-counter increment). -/
def sweep_step (threshold : ℚ) (siblings : List CNode) (mi : List Nat)
    (acc : List CNode × List Nat × Nat) (i : Nat) : List CNode × List Nat × Nat :=
  let out := acc.1
  let skip := acc.2.1
  let cnt := acc.2.2
  let idx1 := mi.getD i 0
  let idx2 := mi.getD (i + 1) 0
  if skip.contains idx1 || skip.contains idx2 then acc
  else
    let sibling1 := siblings.getD idx1 junkNode
    let sibling2 := siblings.getD idx2 junkNode
    if threshold ≤ calculate_similarity sibling1 sibling2 then
      (out ++ [merge_nodes sibling1 sibling2], skip ++ [idx1, idx2], cnt + 2)
    else
      if skip.contains idx1 then (out, skip, cnt)
      else (out ++ [sibling1], skip, cnt)

/-- `CCompressor._merge_similar_siblings`.  Returns the resulting sibling
list together with the amount added to `self.stats['merged_nodes']` during
the pass (the Python method mutates the counter in place, inside the sweep,
before the final length check). -/
def merge_similar_siblings (threshold : ℚ) (siblings : List CNode) :
    List CNode × Nat :=
  if siblings.length ≤ 1 then (siblings, 0)
  else
    let mi := (List.range siblings.length).filter
      (fun i => mergeable_cand (siblings.getD i junkNode))
    if mi.length ≤ 1 then (siblings, 0)
    else
      let acc := (List.range (mi.length - 1)).foldl (sweep_step threshold siblings mi) ([], [], 0)
      let merged := acc.1 ++
        ((List.range siblings.length).filter (fun i => !acc.2.1.contains i)).map
          (fun i => siblings.getD i junkNode)
      if merged.length < siblings.length then (merged, acc.2.2)
      else (siblings, acc.2.2)

-- Concrete siblings used in the merger runs below.
def exCall : CNode := .regular "method_invocation" [.leaf "identifier" "foo"]

def exStmt : CNode := .regular "expression_statement" [.leaf "identifier" "bar"]

def exAccess : CNode := .regular "field_access" [.leaf "identifier" "baz"]


/-- The pure-syntax token set skipped by `_ast_to_pseudo_code`. -/
def skip_types : List String :=
  ["(", ")", "\x7b", "\x7d", "[", "]", ";", ",", ".", "<", ">"]

mutual

/-- `CCompressor._compress_ast_recursive`, with `_preserve_node` inlined into
the preserve branch (the two Python methods are mutually recursive and
`_preserve_node` is called from exactly one place).  The `Stats` accumulator
threads the in-place mutations of `self.stats`. -/
def compress_ast_recursive (threshold : ℚ) : SNode → Stats → CNode × Stats
  | .node typ named text kids, st =>
    let st1 := if named then { st with total_nodes := st.total_nodes + 1 } else st
    if preserve_node_types.contains typ then
      let st2 := { st1 with preserved_nodes := st1.preserved_nodes + 1 }
      let r := compress_children threshold kids st2
      (.preserved typ r.1 (if kids.isEmpty then text else ""), r.2)
    else if kids.isEmpty then
      (.leaf typ text, st1)
    else
      let r := compress_children threshold kids st1
      if typ = "block" then
        let m := merge_similar_siblings threshold r.1
        (.regular typ m.1, { r.2 with merged_nodes := r.2.merged_nodes + m.2 })
      else
        (.regular typ r.1, r.2)

/-- Left-to-right compression of a children list, threading the statistics
(the `for child in node.children` loops). -/
def compress_children (threshold : ℚ) : List SNode → Stats → List CNode × Stats
  | [], st => ([], st)
  | c :: cs, st =>
    let r1 := compress_ast_recursive threshold c st
    let r2 := compress_children threshold cs r1.2
    (r1.1 :: r2.1, r2.2)

end

mutual

/-- `CCompressor._ast_to_pseudo_code`, with `_render_preserved_node` and
`_render_merged_node` inlined into their branches.  The `indent` parameter is
threaded exactly as in the source, where it never influences the output. -/
def ast_to_pseudo_code (indent : Nat) : CNode → String
  | .preserved typ kids _ =>
      if skip_types.contains typ then ""
      else if kids.isEmpty then "" else render_children indent kids
  | .merged typ cnt kids x =>
      if skip_types.contains typ then ""
      else if x ≠ "" then
        let x1 := if 50 < py_len x then py_take x 47 ++ "..." else x
        "/* " ++ Nat.repr cnt ++ "x " ++ typ ++ ": " ++ x1 ++ " */ "
      else if !kids.isEmpty then render_children indent kids
      else "/* " ++ Nat.repr cnt ++ "x " ++ typ ++ " */ "
  | .leaf typ x =>
      if skip_types.contains typ then ""
      else
        let x1 := py_strip x
        if x1 ≠ "" && !skip_types.contains x1 then x1 ++ " " else ""
  | .regular typ kids =>
      if skip_types.contains typ then ""
      else if kids.isEmpty then "" else render_children indent kids

/-- Concatenated rendering of a children list (the `for child in children`
render loops). -/
def render_children (indent : Nat) : List CNode → String
  | [] => ""
  | c :: cs => ast_to_pseudo_code indent c ++ render_children indent cs

end

/-- The `stats` dictionary attached to a compression result: either the
degraded-mode error dictionary or the full statistics. -/
inductive StatsDict where
  | error (msg : String)
  | ok (total_nodes merged_nodes preserved_nodes : Nat)
       (compression_ratio char_compression_ratio : ℚ)
       (original_tokens compressed_tokens original_chars compressed_chars : Nat)
deriving Repr

def StatsDict.stat_total : StatsDict → Nat
  | .error _ => 0
  | .ok t _ _ _ _ _ _ _ _ => t

def StatsDict.stat_merged : StatsDict → Nat
  | .error _ => 0
  | .ok _ m _ _ _ _ _ _ _ => m

def StatsDict.stat_preserved : StatsDict → Nat
  | .error _ => 0
  | .ok _ _ p _ _ _ _ _ _ => p

def StatsDict.stat_char_ratio : StatsDict → ℚ
  | .error _ => 0
  | .ok _ _ _ _ cr _ _ _ _ => cr

def StatsDict.stat_orig_tokens : StatsDict → Nat
  | .error _ => 0
  | .ok _ _ _ _ _ ot _ _ _ => ot

def StatsDict.stat_comp_tokens : StatsDict → Nat
  | .error _ => 0
  | .ok _ _ _ _ _ _ ct _ _ => ct

def StatsDict.stat_orig_chars : StatsDict → Nat
  | .error _ => 0
  | .ok _ _ _ _ _ _ _ oc _ => oc

/-- The dictionary returned by `CCompressor.compress`. -/
structure CompressionResult where
  compressed_code : String
  original_code : String
  compression_ratio : ℚ
  stats : StatsDict
deriving Repr

/-- The compressor's configuration fields set by `CCompressor.__init__`. -/
structure CCompressor where
  similarity_threshold : ℚ
  max_compression_ratio : ℚ
deriving Repr

/-- Python `x or default` as used in `__init__`: `None` and `0.0` are both
falsy and select the class default. -/
def or_default (x : Option ℚ) (dflt : ℚ) : ℚ :=
  match x with
  | none => dflt
  | some v => if v = 0 then dflt else v

/-- `CCompressor.__init__` (class defaults `SIMILARITY_THRESHOLD = 0.7` and
the 0.6 maximum-compression default). -/
def CCompressor.init (similarity_threshold max_compression_ratio : Option ℚ) :
    CCompressor :=
  { similarity_threshold := or_default similarity_threshold (7/10),
    max_compression_ratio := or_default max_compression_ratio (6/10) }

/-- `CCompressor.compress`.  The external parser capability
(`_get_java_parser()`) is an explicit argument: `none` is the degraded mode
in which the lazy initialization failed, `some parse` the available parser,
an opaque function from source text to trees. -/
def CCompressor.compress (c : CCompressor) (parser : Option (String → SNode))
    (source_code : String) : CompressionResult :=
  match parser with
  | none =>
      { compressed_code := source_code, original_code := source_code,
        compression_ratio := 1, stats := .error "Parser not available" }
  | some parse =>
      let root_node := parse source_code
      let r := compress_ast_recursive c.similarity_threshold root_node ⟨0, 0, 0⟩
      let compressed_code := ast_to_pseudo_code 0 r.1
      let original_tokens := (py_split source_code).length
      let compressed_tokens :=
        if compressed_code ≠ "" then (py_split compressed_code).length else 0
      let original_chars := py_len source_code
      let compressed_chars := if compressed_code ≠ "" then py_len compressed_code else 0
      let char_ratio : ℚ :=
        if 0 < original_chars then (compressed_chars : ℚ) / (original_chars : ℚ) else 0
      let ratio : ℚ :=
        if 0 < original_tokens then (compressed_tokens : ℚ) / (original_tokens : ℚ) else 0
      { compressed_code := compressed_code, original_code := source_code,
        compression_ratio := ratio,
        stats := .ok r.2.total_nodes r.2.merged_nodes r.2.preserved_nodes
          ratio char_ratio original_tokens compressed_tokens
          original_chars compressed_chars }

/-- The default-configured compressor (`CCompressor()`). -/
def defaultCompressor : CCompressor := CCompressor.init none none

-- Parser stub returning the tree `tree_sitter_languages` produces for the
-- fragment "a b": a program node wrapping an error node with two identifiers.
def parse_two_idents : String → SNode := fun _ =>
  .node "program" true "a b"
    [.node "ERROR" true "a b"
      [.node "identifier" true "a" [], .node "identifier" true "b" []]]

-- Parser stub for a lone semicolon: a program node with one ';' token child.
def parse_semi : String → SNode := fun _ =>
  .node "program" true ";" [.node ";" false ";" []]


/-- Structural strong induction over parser trees (children are reached
through the nested `List`). -/
theorem SNode.inductOn (P : SNode → Prop)
    (ih : ∀ typ named text kids, (∀ c ∈ kids, P c) → P (.node typ named text kids)) :
    ∀ s, P s
  | .node typ named text kids =>
      ih typ named text kids (fun c _hc => SNode.inductOn P ih c)
termination_by s => sizeOf s
decreasing_by
  have h1 := List.sizeOf_lt_of_mem _hc
  simp only [SNode.node.sizeOf_spec]
  omega

/-- The compressed tree of a node, at the initial statistics accumulator. -/
def c_ast (th : ℚ) (s : SNode) : CNode := (compress_ast_recursive th s ⟨0, 0, 0⟩).1

/-- The compressed children list, rewritten to a canonical form: the result
does not depend on the statistics accumulator threaded through the loop. -/
theorem compress_children_fst_map (th : ℚ) (l : List SNode)
    (h : ∀ c ∈ l, ∀ st st' : Stats,
      (compress_ast_recursive th c st).1 = (compress_ast_recursive th c st').1) :
    ∀ st : Stats, (compress_children th l st).1 = l.map (c_ast th) := by
  induction l with
  | nil => intro st; rfl
  | cons c cs ihl =>
      intro st
      simp only [compress_children, List.map]
      rw [h c (List.mem_cons_self c cs) st ⟨0, 0, 0⟩]
      exact congrArg _ (ihl (fun d hd => h d (List.mem_cons_of_mem c hd)) _)

/-- The compressed node returned by the traversal does not depend on the
statistics accumulator (the counters are write-only for the tree shape). -/
theorem compress_ast_fst_ext (th : ℚ) (s : SNode) :
    ∀ st st' : Stats, (compress_ast_recursive th s st).1 = (compress_ast_recursive th s st').1 := by
  induction s using SNode.inductOn with
  | ih typ named text kids hmem =>
    intro st st'
    simp only [compress_ast_recursive, compress_children_fst_map th kids hmem]
    split
    · rfl
    · split
      · rfl
      · split <;> rfl

theorem compress_ast_fst_canon (th : ℚ) (s : SNode) (st : Stats) :
    (compress_ast_recursive th s st).1 = c_ast th s :=
  compress_ast_fst_ext th s st ⟨0, 0, 0⟩

theorem compress_children_merged_const (th : ℚ) (l : List SNode)
    (h : ∀ c ∈ l, ∀ st : Stats,
      (compress_ast_recursive th c st).2.merged_nodes = st.merged_nodes) :
    ∀ st : Stats, (compress_children th l st).2.merged_nodes = st.merged_nodes := by
  induction l with
  | nil => intro st; rfl
  | cons c cs ihl =>
      intro st
      simp only [compress_children]
      rw [ihl (fun d hd => h d (List.mem_cons_of_mem c hd)) _]
      exact h c (List.mem_cons_self c cs) st

/-- The traversal never changes `merged_nodes`: the only branch that adds to
it is guarded by `typ = "block"`, but `"block"` is in the preserve set, so
that branch is unreachable. -/
theorem compress_ast_merged_const (th : ℚ) (s : SNode) :
    ∀ st : Stats, (compress_ast_recursive th s st).2.merged_nodes = st.merged_nodes := by
  induction s using SNode.inductOn with
  | ih typ named text kids hmem =>
    intro st
    have hch := compress_children_merged_const th kids hmem
    have hst1 : ∀ st0 : Stats,
        (if named = true then { st0 with total_nodes := st0.total_nodes + 1 } else st0).merged_nodes
          = st0.merged_nodes := by
      intro st0; cases named <;> simp
    simp only [compress_ast_recursive]
    by_cases hp : preserve_node_types.contains typ = true
    · simp only [hp, if_true]
      rw [hch]
      simp only [hst1]
    · simp only [hp, if_false, Bool.false_eq_true]
      by_cases hk : kids.isEmpty = true
      · simp only [hk, if_true]
        exact hst1 st
      · simp only [hk, if_false, Bool.false_eq_true]
        by_cases hb : typ = "block"
        · exfalso
          rw [hb] at hp
          exact hp (by rfl)
        · simp only [hb, if_false]
          rw [hch]
          exact hst1 st

/-- Claim C5: with the parser capability unavailable, `compress` returns the
input unchanged, ratio 1.0 and the error statistics dictionary, raising
nothing (the embedding is a total function and this equation is
definitional). -/
theorem compress_degraded_mode (c : CCompressor) (source_code : String) :
    c.compress none source_code =
      { compressed_code := source_code, original_code := source_code,
        compression_ratio := 1, stats := .error "Parser not available" } := rfl

theorem compress_max_field_irrelevant (t m m' : ℚ) (parser : Option (String → SNode))
    (src : String) :
    CCompressor.compress ⟨t, m⟩ parser src = CCompressor.compress ⟨t, m'⟩ parser src := by
  cases parser <;> rfl

/-- Claim C9: `max_compression_ratio` never influences the result of
`compress`; any two configurations in (0, 1] produce identical results (the
field is stored by `__init__` and read nowhere). -/
theorem max_ratio_never_influences_result (source_code : String)
    (parser : Option (String → SNode)) (th : Option ℚ) (a b : ℚ)
    (ha0 : 0 < a) (ha1 : a ≤ 1) (hb0 : 0 < b) (hb1 : b ≤ 1) :
    (CCompressor.init th (some a)).compress parser source_code =
      (CCompressor.init th (some b)).compress parser source_code :=
  compress_max_field_irrelevant (or_default th (7/10))
    (or_default (some a) (6/10)) (or_default (some b) (6/10)) parser source_code

theorem max_ratio_never_influences_result_witness :
    (0 < (1:ℚ)/2 ∧ (1:ℚ)/2 ≤ 1 ∧ 0 < (1:ℚ) ∧ (1:ℚ) ≤ 1) ∧
    (CCompressor.init none (some (1/2))).compress (some parse_two_idents) "a b" =
      (CCompressor.init none (some 1)).compress (some parse_two_idents) "a b" :=
  ⟨⟨by norm_num, by norm_num, by norm_num, by norm_num⟩,
   max_ratio_never_influences_result "a b" (some parse_two_idents) none (1/2) 1
     (by norm_num) (by norm_num) (by norm_num) (by norm_num)⟩

/-- Claim C10: constructing the compressor with the falsy value 0.0 for
either parameter silently selects the class defaults (0.7 and 0.6), while
any value in (0, 1] is used as given. -/
theorem falsy_config_replaced_by_defaults (v : ℚ) (h0 : 0 < v) (h1 : v ≤ 1) :
    CCompressor.init (some 0) (some 0) =
      { similarity_threshold := 7/10, max_compression_ratio := 6/10 } ∧
    (CCompressor.init (some v) (some v)).similarity_threshold = v ∧
    (CCompressor.init (some v) (some v)).max_compression_ratio = v := by
  refine ⟨rfl, ?_, ?_⟩ <;> simp [CCompressor.init, or_default, h0.ne']

theorem falsy_config_replaced_by_defaults_witness :
    (0 < (1:ℚ)/2 ∧ (1:ℚ)/2 ≤ 1) ∧
    (CCompressor.init (some 0) (some 0) =
      { similarity_threshold := 7/10, max_compression_ratio := 6/10 } ∧
     (CCompressor.init (some (1/2)) (some (1/2))).similarity_threshold = 1/2 ∧
     (CCompressor.init (some (1/2)) (some (1/2))).max_compression_ratio = 1/2) :=
  ⟨⟨by norm_num, by norm_num⟩,
   falsy_config_replaced_by_defaults (1/2) (by norm_num) (by norm_num)⟩

/-- Claim C1: the sibling merger can emit a sibling twice.  In the run below,
sibling 0 (a `method_invocation`) is examined against its candidate
neighbour, fails the threshold (similarity 0.4 < 0.7), and is appended by the
keep-separate branch; the final remaining-siblings loop, which only consults
`skip_indices`, appends it again, and because two merges shrank the list the
length check accepts the output containing the duplicate.  The claim says an
examined-and-not-merged sibling is emitted exactly once, so this is a bug in
the code: the keep-separate branch fails to record the emitted index. -/
theorem merger_emits_kept_sibling_twice :
    mergeable_cand exCall = true ∧
    calculate_similarity exCall exStmt < 7/10 ∧
    (merge_similar_siblings (7/10) [exCall, exStmt, exStmt, exAccess, exAccess]).1 =
      [exCall,
       .merged "expression_statement" 2 [.leaf "identifier" "bar", .leaf "identifier" "bar"] "bar bar",
       .merged "field_access" 2 [.leaf "identifier" "baz", .leaf "identifier" "baz"] "baz baz",
       exCall] :=
  ⟨rfl, by decide, by rfl⟩

/-- Claim C2 counterexample: a merged node does not occupy the position of
the pair it replaces.  The input is `[leaf x, stmt, stmt]`: the untouched
leaf sits at position 0, the merged pair at positions 1 and 2, yet the
output places the merged node first and the leaf after it, because the sweep
appends merged nodes to a fresh list and the untouched siblings are appended
only afterwards. -/
theorem merger_reorders_merged_before_untouched :
    (merge_similar_siblings (7/10) [.leaf "identifier" "x", exStmt, exStmt]).1 =
      [.merged "expression_statement" 2 [.leaf "identifier" "bar", .leaf "identifier" "bar"] "bar bar",
       .leaf "identifier" "x"] := by rfl

/-- Claim C3: when the pass does not reduce the sibling count the original
list is returned, but the per-call statistics are still touched: in the run
below one merge happened inside the sweep (incrementing `merged_nodes` by 2)
and the keep-separate duplication made the output as long as the input, so
the safety valve returns the original list while the counter increment
remains.  The claim (and the spec's stated purpose of the check, protecting
the statistics) says the counter must be unchanged, so this is a bug in the
code: `merged_nodes` is incremented before the length check and never rolled
back. -/
theorem merger_increments_counter_without_reduction :
    merge_similar_siblings (7/10) [exCall, exStmt, exStmt] = ([exCall, exStmt, exStmt], 2) := by
  rfl

theorem ratio_if_zero_iff (n m : Nat) :
    ((if 0 < n then (m : ℚ) / (n : ℚ) else 0) = 0) ↔ (n = 0 ∨ m = 0) := by
  by_cases h : 0 < n
  · rw [if_pos h, div_eq_zero_iff]
    have hn : (n : ℚ) ≠ 0 := Nat.cast_ne_zero.mpr (Nat.pos_iff_ne_zero.mp h)
    constructor
    · rintro (hm | hn2)
      · exact Or.inr (Nat.cast_eq_zero.mp hm)
      · exact absurd hn2 hn
    · rintro (hn2 | hm)
      · exact absurd hn2 (Nat.pos_iff_ne_zero.mp h)
      · exact Or.inl (Nat.cast_eq_zero.mpr hm)
  · rw [if_neg h]
    simp [Nat.eq_zero_of_not_pos h]

/-- Claim C7 corrected: `compression_ratio` is zero exactly when the input
has no whitespace tokens or the rendered output has none; an all-syntax
input (for example a lone semicolon) yields ratio 0 with positive
`original_tokens`. -/
theorem ratio_zero_iff_no_tokens_or_empty_output (c : CCompressor)
    (parse : String → SNode) (source_code : String) :
    (c.compress (some parse) source_code).compression_ratio = 0 ↔
      ((c.compress (some parse) source_code).stats.stat_orig_tokens = 0 ∨
       (c.compress (some parse) source_code).stats.stat_comp_tokens = 0) := by
  simp only [CCompressor.compress, StatsDict.stat_orig_tokens, StatsDict.stat_comp_tokens]
  exact ratio_if_zero_iff _ _

/-- Claim C7 counterexample: on the source `";"` (one whitespace token) the
parser yields a tree whose only leaf is the pure-syntax token `;`, the
rendered output is empty, and `compression_ratio` is 0 although
`original_tokens = 1`, refuting the claimed equivalence. -/
theorem ratio_zero_with_nonzero_tokens :
    (defaultCompressor.compress (some parse_semi) ";").compression_ratio = 0 ∧
    (defaultCompressor.compress (some parse_semi) ";").stats.stat_orig_tokens = 1 :=
  ⟨rfl, rfl⟩

/-- Claim C6 corrected: the character ratio is a quotient of two
non-negative counts, so it is non-negative whenever `original_chars > 0`
(the upper bound 1 claimed by the spec does not hold, see the
counterexample). -/
theorem char_ratio_nonneg (c : CCompressor) (parse : String → SNode)
    (source_code : String) (h : 0 < py_len source_code) :
    0 ≤ (c.compress (some parse) source_code).stats.stat_char_ratio := by
  simp only [CCompressor.compress, StatsDict.stat_char_ratio]
  split
  all_goals first
    | exact div_nonneg (Nat.cast_nonneg _) (Nat.cast_nonneg _)
    | exact le_refl (0 : ℚ)

theorem char_ratio_nonneg_witness :
    0 < py_len "a b" ∧
    0 ≤ (defaultCompressor.compress (some parse_two_idents) "a b").stats.stat_char_ratio :=
  ⟨by decide, char_ratio_nonneg defaultCompressor parse_two_idents "a b" (by decide)⟩

/-- Claim C6 counterexample: the renderer appends a trailing space to every
emitted leaf, so on the 3-character source `"a b"` (two identifier leaves)
the output is `"a b "` with 4 characters and `char_compression_ratio = 4/3`,
outside the claimed interval [0, 1]. -/
theorem char_ratio_exceeds_one :
    0 < (defaultCompressor.compress (some parse_two_idents) "a b").stats.stat_orig_chars ∧
    1 < (defaultCompressor.compress (some parse_two_idents) "a b").stats.stat_char_ratio := by
  exact ⟨by decide, by decide⟩

/-- Claim C8: after every `compress` call `merged_nodes` is even and at most
`total_nodes`.  This holds in the strongest possible form: the merge branch
of the traversal is dead (`"block"` is preserved before the branch can
trigger), so `merged_nodes` is always 0. -/
theorem merged_nodes_even_and_le_total (c : CCompressor) (parse : String → SNode)
    (source_code : String) :
    Even ((c.compress (some parse) source_code).stats.stat_merged) ∧
    (c.compress (some parse) source_code).stats.stat_merged ≤
      (c.compress (some parse) source_code).stats.stat_total := by
  have hm : (c.compress (some parse) source_code).stats.stat_merged = 0 := by
    simp only [CCompressor.compress, StatsDict.stat_merged]
    exact compress_ast_merged_const c.similarity_threshold (parse source_code) ⟨0, 0, 0⟩
  rw [hm]
  exact ⟨even_zero, Nat.zero_le _⟩

theorem filter_sublist_filter_of_mem_imp {α : Type} (l : List α) (p q : α → Bool)
    (h : ∀ x ∈ l, p x = true → q x = true) :
    (l.filter p).Sublist (l.filter q) := by
  induction l with
  | nil => simp
  | cons a tl ih =>
      have htl := ih (fun x hx => h x (List.mem_cons_of_mem a hx))
      by_cases hp : p a = true
      · have hq := h a (List.mem_cons_self a tl) hp
        rw [List.filter_cons, List.filter_cons, if_pos hp, if_pos hq]
        exact htl.cons₂ a
      · rw [List.filter_cons, if_neg hp]
        by_cases hq : q a = true
        · rw [List.filter_cons, if_pos hq]
          exact htl.cons a
        · rw [List.filter_cons, if_neg hq]
          exact htl

theorem filter_eq_range_filter_map {α : Type} (d : α) :
    ∀ (l : List α) (p : α → Bool),
      ((List.range l.length).filter (fun i => p (l.getD i d))).map (fun i => l.getD i d) =
        l.filter p := by
  intro l
  induction l with
  | nil => intro p; rfl
  | cons a tl ih =>
      intro p
      rw [List.length_cons, List.range_succ_eq_map, List.filter_cons]
      simp only [List.getD_cons_zero, List.filter_map, List.map_map]
      by_cases hpa : p a = true
      · rw [if_pos hpa, List.map_cons, List.filter_cons, if_pos hpa, List.map_map]
        refine congrArg _ ?_
        have hcomp :
            ((fun i => (a :: tl).getD i d) ∘ Nat.succ) = fun i => tl.getD i d := by
          funext i
          simp [List.getD_cons_succ]
        have hcomp2 :
            ((fun i => p ((a :: tl).getD i d)) ∘ Nat.succ) = fun i => p (tl.getD i d) := by
          funext i
          simp [List.getD_cons_succ]
        rw [hcomp, hcomp2, ih p]
      · rw [if_neg hpa, List.filter_cons, if_neg hpa, List.map_map]
        have hcomp :
            ((fun i => (a :: tl).getD i d) ∘ Nat.succ) = fun i => tl.getD i d := by
          funext i
          simp [List.getD_cons_succ]
        have hcomp2 :
            ((fun i => p ((a :: tl).getD i d)) ∘ Nat.succ) = fun i => p (tl.getD i d) := by
          funext i
          simp [List.getD_cons_succ]
        rw [hcomp, hcomp2, ih p]

theorem list_foldl_preserve {α β : Type} (f : α → β → α) (P : α → Prop) :
    ∀ (l : List β) (acc0 : α), P acc0 → (∀ acc b, b ∈ l → P acc → P (f acc b)) →
      P (l.foldl f acc0) := by
  intro l
  induction l with
  | nil => intro acc0 h0 _; exact h0
  | cons b tl ih =>
      intro acc0 h0 hstep
      exact ih (f acc0 b) (hstep acc0 b (List.mem_cons_self b tl) h0)
        (fun acc c hc => hstep acc c (List.mem_cons_of_mem b hc))

theorem getD_mem_of_lt {α : Type} (d : α) :
    ∀ (l : List α) (i : Nat), i < l.length → l.getD i d ∈ l := by
  intro l
  induction l with
  | nil => intro i h; simp at h
  | cons a tl ih =>
      intro i h
      cases i with
      | zero => simp [List.getD_cons_zero]
      | succ j =>
          rw [List.getD_cons_succ]
          exact List.mem_cons_of_mem a (ih j (by simpa using Nat.lt_of_succ_lt_succ h))

/-- Indices recorded in the skip set during the greedy sweep always point at
merge candidates (only candidate indices are ever marked consumed). -/
theorem sweep_skip_cand (th : ℚ) (siblings : List CNode) (mi : List Nat)
    (hmi : ∀ k ∈ mi, mergeable_cand (siblings.getD k junkNode) = true) :
    ∀ k ∈ ((List.range (mi.length - 1)).foldl (sweep_step th siblings mi)
            ([], [], 0)).2.1,
      mergeable_cand (siblings.getD k junkNode) = true := by
  refine list_foldl_preserve (sweep_step th siblings mi)
    (fun acc => ∀ k ∈ acc.2.1, mergeable_cand (siblings.getD k junkNode) = true)
    (List.range (mi.length - 1)) ([], [], 0) (by intro k hk; simp at hk) ?_
  intro acc i hi hacc
  have hrange := List.mem_range.mp hi
  simp only [sweep_step]
  split
  · exact hacc
  · split
    · intro k hk
      rcases List.mem_append.mp hk with hold | hnew
      · exact hacc k hold
      · have h1 : mi.getD i 0 ∈ mi := getD_mem_of_lt 0 mi i (by omega)
        have h2 : mi.getD (i + 1) 0 ∈ mi := getD_mem_of_lt 0 mi (i + 1) (by omega)
        rcases List.mem_cons.mp hnew with h | h
        · rw [h]; exact hmi _ h1
        · rcases List.mem_cons.mp h with h' | h'
          · rw [h']; exact hmi _ h2
          · simp at h'
    · split
      · exact hacc
      · exact hacc

/-- Claim C2 corrected: siblings never touched by the candidate sweep (the
non-mergeable or leaf siblings) do keep their original relative order in the
output — they form a sublist of the result in both the merging and the
safety-valve branch — but a merged node does not occupy the position of its
pair: all sweep output is emitted before the untouched siblings (see the
counterexample). -/
theorem merger_untouched_siblings_keep_relative_order (th : ℚ) (siblings : List CNode) :
    (siblings.filter (fun s => !mergeable_cand s)).Sublist
      (merge_similar_siblings th siblings).1 := by
  simp only [merge_similar_siblings]
  split
  · exact List.filter_sublist siblings
  · split
    · exact List.filter_sublist siblings
    · split
      · -- merging branch: the untouched siblings are a sublist of the
        -- final remaining-siblings append, which is a suffix of the output
        refine List.Sublist.trans ?_ (List.sublist_append_right _ _)
        rw [← filter_eq_range_filter_map junkNode siblings (fun s => !mergeable_cand s)]
        apply List.Sublist.map
        apply filter_sublist_filter_of_mem_imp
        intro i _ hcand
        have hskip := sweep_skip_cand th siblings
          ((List.range siblings.length).filter
            (fun i => mergeable_cand (siblings.getD i junkNode)))
          (fun k hk => (List.mem_filter.mp hk).2)
        cases hc : (((List.range
            (((List.range siblings.length).filter
              (fun i => mergeable_cand (siblings.getD i junkNode))).length - 1)).foldl
            (sweep_step th siblings
              ((List.range siblings.length).filter
                (fun i => mergeable_cand (siblings.getD i junkNode))))
            ([], [], 0)).2.1).contains i with
        | false => simp
        | true =>
            exfalso
            have hmem : i ∈ (((List.range
                (((List.range siblings.length).filter
                  (fun i => mergeable_cand (siblings.getD i junkNode))).length - 1)).foldl
                (sweep_step th siblings
                  ((List.range siblings.length).filter
                    (fun i => mergeable_cand (siblings.getD i junkNode))))
                ([], [], 0)).2.1) := by
              have := List.elem_iff.mp hc
              exact this
            have := hskip i hmem
            rw [this] at hcand
            simp at hcand
      · exact List.filter_sublist siblings

/-- Substring containment between rendered strings. -/
def ContainsStr (big small : String) : Prop := ∃ a b : String, big = a ++ small ++ b

theorem containsStr_self (s : String) : ContainsStr s s :=
  ⟨"", "", by rw [String.empty_append, String.append_empty]⟩

theorem containsStr_trans (a b c : String) (h1 : ContainsStr a b) (h2 : ContainsStr b c) :
    ContainsStr a c := by
  obtain ⟨x, y, hxy⟩ := h1
  obtain ⟨u, v, huv⟩ := h2
  exact ⟨x ++ u, v ++ y, by rw [hxy, huv]; simp [String.append_assoc]⟩

theorem containsStr_append_left (pre s t : String) (h : ContainsStr s t) :
    ContainsStr (pre ++ s) t := by
  obtain ⟨x, y, hxy⟩ := h
  exact ⟨pre ++ x, y, by rw [hxy]; simp [String.append_assoc]⟩

theorem containsStr_prefix (s post : String) : ContainsStr (s ++ post) s :=
  ⟨"", post, by rw [String.empty_append]⟩

/-- Paths through the input tree along child edges on which every node kind
lies outside the renderer's pure-syntax skip set (the "modulo pure-syntax
token stripping" proviso of the preservation claim). -/
inductive RenderPath : SNode → SNode → Prop where
  | refl (s : SNode) (h : skip_types.contains s.styp = false) : RenderPath s s
  | step (s c d : SNode) (h : skip_types.contains s.styp = false)
      (hc : c ∈ s.schildren) (hp : RenderPath c d) : RenderPath s d

theorem render_path_last {a b : SNode} (h : RenderPath a b) :
    skip_types.contains b.styp = false := by
  induction h with
  | refl s hs => exact hs
  | step s c d hs hc hp ih => exact ih

theorem render_path_trans {a b c : SNode} (h1 : RenderPath a b) :
    RenderPath b c → RenderPath a c := by
  induction h1 with
  | refl s hs => exact fun h2 => h2
  | step s x d hs hx hp ih => exact fun h2 => RenderPath.step _ _ _ hs hx (ih h2)

/-- Compressed trees containing no `Merged` node. -/
inductive NoMerged : CNode → Prop where
  | leaf (t x : String) : NoMerged (.leaf t x)
  | preserved (t x : String) (kids : List CNode) (h : ∀ c ∈ kids, NoMerged c) :
      NoMerged (.preserved t kids x)
  | regular (t : String) (kids : List CNode) (h : ∀ c ∈ kids, NoMerged c) :
      NoMerged (.regular t kids)

theorem render_children_contains (ind : Nat) (kids : List CNode) (c : CNode)
    (hc : c ∈ kids) :
    ContainsStr (render_children ind kids) (ast_to_pseudo_code ind c) := by
  induction kids with
  | nil => cases hc
  | cons k ks ih =>
      simp only [render_children]
      rcases List.mem_cons.mp hc with h | h
      · rw [h]
        exact containsStr_prefix _ _
      · exact containsStr_append_left _ _ _ (ih h)

/-- One rendering level: the rendering of any child's compressed tree occurs
inside the rendering of the parent's compressed tree, provided the parent's
kind is not a pure-syntax token. -/
theorem c_ast_child_render_contains (th : ℚ) (ind : Nat) (typ : String) (named : Bool)
    (text : String) (kids : List SNode) (c : SNode)
    (hskip : skip_types.contains typ = false) (hc : c ∈ kids) :
    ContainsStr (ast_to_pseudo_code ind (c_ast th (.node typ named text kids)))
      (ast_to_pseudo_code ind (c_ast th c)) := by
  have hmap : ∀ st, (compress_children th kids st).1 = kids.map (c_ast th) :=
    compress_children_fst_map th kids (fun d _ => compress_ast_fst_ext th d)
  have hk : kids.isEmpty = false := by
    cases kids with
    | nil => cases hc
    | cons a tl => rfl
  have hkm : (kids.map (c_ast th)).isEmpty = false := by
    cases kids with
    | nil => cases hc
    | cons a tl => rfl
  have hmem : c_ast th c ∈ kids.map (c_ast th) := List.mem_map_of_mem _ hc
  simp only [c_ast, compress_ast_recursive, hmap]
  by_cases hp : preserve_node_types.contains typ = true
  · simp only [hp, if_true]
    simp only [ast_to_pseudo_code, hskip, hkm, if_false, Bool.false_eq_true]
    exact render_children_contains ind _ _ hmem
  · simp only [hp, if_false, Bool.false_eq_true, hk]
    by_cases hb : typ = "block"
    · exfalso
      rw [hb] at hp
      exact hp (by rfl)
    · simp only [hb, if_false]
      simp only [ast_to_pseudo_code, hskip, hkm, if_false, Bool.false_eq_true]
      exact render_children_contains ind _ _ hmem

theorem render_path_contains (th : ℚ) (ind : Nat) (a b : SNode) (h : RenderPath a b) :
    ContainsStr (ast_to_pseudo_code ind (c_ast th a)) (ast_to_pseudo_code ind (c_ast th b)) := by
  induction h with
  | refl s hs => exact containsStr_self _
  | step s c d hs hc hp ih =>
      cases s with
      | node typ named text kids =>
          refine containsStr_trans _ _ _ ?_ ih
          exact c_ast_child_render_contains th ind typ named text kids c hs hc

/-- A childless node of non-preserved kind renders as its stripped text plus
a trailing space, whenever that text survives the syntax-token filter. -/
theorem render_leaf_text (th : ℚ) (ind : Nat) (lf : SNode)
    (hskip : skip_types.contains lf.styp = false)
    (hleaf : lf.schildren = [])
    (hnp : preserve_node_types.contains lf.styp = false)
    (ht1 : py_strip lf.stext ≠ "")
    (ht2 : skip_types.contains (py_strip lf.stext) = false) :
    ast_to_pseudo_code ind (c_ast th lf) = py_strip lf.stext ++ " " := by
  cases lf with
  | node typ named text kids =>
      simp only [SNode.styp] at hskip hnp
      simp only [SNode.stext] at ht1 ht2
      simp only [SNode.schildren] at hleaf
      subst hleaf
      simp only [c_ast, compress_ast_recursive, hnp, if_false, Bool.false_eq_true,
        List.isEmpty_nil, if_true]
      simp only [ast_to_pseudo_code, hskip, if_false, Bool.false_eq_true]
      have hnotmem : py_strip text ∉ skip_types := by
        intro hmem
        have h3 : skip_types.contains (py_strip text) = true := List.elem_iff.mpr hmem
        rw [h3] at ht2
        simp at ht2
      simp [ht1, hnotmem, SNode.stext]

/-- The compression traversal never produces a `Merged` node: the only call
to the merger sits behind the dead `typ = "block"` test. -/
theorem compress_ast_no_merged (th : ℚ) (s : SNode) : NoMerged (c_ast th s) := by
  induction s using SNode.inductOn with
  | ih typ named text kids hmem =>
      have hmap : ∀ st, (compress_children th kids st).1 = kids.map (c_ast th) :=
        compress_children_fst_map th kids (fun d _ => compress_ast_fst_ext th d)
      have hkid : ∀ c ∈ kids.map (c_ast th), NoMerged c := by
        intro c hc
        rcases List.mem_map.mp hc with ⟨d, hd, rfl⟩
        exact hmem d hd
      simp only [c_ast, compress_ast_recursive, hmap]
      by_cases hp : preserve_node_types.contains typ = true
      · simp only [hp, if_true]
        exact NoMerged.preserved _ _ _ hkid
      · simp only [hp, if_false, Bool.false_eq_true]
        by_cases hk : kids.isEmpty = true
        · simp only [hk, if_true]
          exact NoMerged.leaf _ _
        · simp only [hk, if_false, Bool.false_eq_true]
          by_cases hb : typ = "block"
          · exfalso
            rw [hb] at hp
            exact hp (by rfl)
          · simp only [hb, if_false]
            exact NoMerged.regular _ _ hkid

-- Parser stub returning a childless tree node whose kind is in the preserve
-- set (trees are opaque external inputs; the compressor never validates
-- their shape).
def parse_childless_if : String → SNode := fun _ => .node "if_statement" true "if" []

/-- Claim C4 counterexample: a childless node of preserved kind loses its
text.  `_preserve_node` stores the node's text in the dictionary, but
`_render_preserved_node` returns `''` whenever the children list is empty
without ever consulting the `text` field, so the rendered output of
`compress` is empty and does not retain the descendant leaf text `"if"`
(which is neither empty nor a pure-syntax token). -/
theorem preserved_childless_text_dropped :
    preserve_node_types.contains "if_statement" = true ∧
    py_strip "if" = "if" ∧
    (defaultCompressor.compress (some parse_childless_if) "if").compressed_code = "" ∧
    ¬ ContainsStr "" "if" := by
  refine ⟨rfl, rfl, rfl, ?_⟩
  rintro ⟨a, b, hab⟩
  have hlen := congrArg py_len hab
  simp only [py_len, String.data_append] at hlen
  simp [List.length_append] at hlen
  omega

/-- Claim C4 corrected: along any path of non-syntax-token kinds from the
root through a preserved-kind node `p` down to a childless descendant `lf`
whose kind is not itself in the preserve set, the stripped text of `lf`
survives into the rendered output of `compress` (pure-syntax tokens and
empty texts excepted), and no node of the compressed tree is ever a
`Merged` node — so preserved nodes in particular are never converted to
`Merged` and their subtrees are fully visited.  The exception for
preserve-kind childless descendants is forced by the counterexample: the
renderer drops the text of a childless preserved node. -/
theorem preserved_descendant_text_retained (th mx : ℚ) (parse : String → SNode)
    (source_code : String) (p lf : SNode)
    (hroot : RenderPath (parse source_code) p)
    (hkind : preserve_node_types.contains p.styp = true)
    (hdesc : RenderPath p lf)
    (hleaf : lf.schildren = [])
    (hnp : preserve_node_types.contains lf.styp = false)
    (ht1 : py_strip lf.stext ≠ "")
    (ht2 : skip_types.contains (py_strip lf.stext) = false) :
    ContainsStr ((CCompressor.compress ⟨th, mx⟩ (some parse) source_code).compressed_code)
      (py_strip lf.stext) ∧
    NoMerged (c_ast th (parse source_code)) := by
  constructor
  · have hpath := render_path_trans hroot hdesc
    have h1 := render_path_contains th 0 (parse source_code) lf hpath
    have h2 : skip_types.contains lf.styp = false := render_path_last hdesc
    have h3 := render_leaf_text th 0 lf h2 hleaf hnp ht1 ht2
    have hcode : (CCompressor.compress ⟨th, mx⟩ (some parse) source_code).compressed_code =
        ast_to_pseudo_code 0 (c_ast th (parse source_code)) := by
      simp only [CCompressor.compress]
      rw [compress_ast_fst_canon]
    rw [hcode]
    refine containsStr_trans _ _ _ h1 ?_
    rw [h3]
    exact containsStr_prefix _ _
  · exact compress_ast_no_merged th (parse source_code)

-- Concrete preserved tree for the witness: an if-statement node with the
-- keyword token and a condition identifier as children.
def witness_if_tree : SNode :=
  .node "if_statement" true "if (x) y ;"
    [.node "if" false "if" [], .node "identifier" true "x" []]

def witness_if_leaf : SNode := .node "if" false "if" []

theorem preserved_descendant_text_retained_witness :
    (preserve_node_types.contains witness_if_tree.styp = true ∧
     witness_if_leaf.schildren = [] ∧
     preserve_node_types.contains witness_if_leaf.styp = false ∧
     py_strip witness_if_leaf.stext ≠ "" ∧
     skip_types.contains (py_strip witness_if_leaf.stext) = false) ∧
    (ContainsStr
      ((CCompressor.compress ⟨7/10, 6/10⟩ (some (fun _ => witness_if_tree))
          "if (x) y ;").compressed_code)
      (py_strip witness_if_leaf.stext) ∧
     NoMerged (c_ast (7/10) ((fun _ : String => witness_if_tree) "if (x) y ;"))) :=
  ⟨⟨rfl, rfl, rfl, by decide, rfl⟩,
   preserved_descendant_text_retained (7/10) (6/10) (fun _ => witness_if_tree)
     "if (x) y ;" witness_if_tree witness_if_leaf
     (RenderPath.refl _ rfl) rfl
     (RenderPath.step _ _ _ rfl (List.Mem.head _) (RenderPath.refl _ rfl))
     rfl rfl (by decide) rfl⟩
